import Mathlib

/-
  Verification development for the OriNet rigid-body orientation network
  library (Stellacore/OriNet).

  Shallow embedding conventions:
  * The C++ double is modelled as an exact real number, represented by a
    rational; the NaN sentinel of the code is modelled by Option: none is
    NaN (the engabra null double) and some q is a finite value q.
  * Values, Vectors, Attitudes, Transforms (stat.hpp), medianOf and the
    robust estimators (robust.hpp), the compare functions (compare.hpp),
    the edge variants (networkEdge.hpp) and the Geometry graph operations
    (networkGeometry.cpp) are translated below from the sources.
  * The external GeoAlg kernel (Engabra / Rigibra) is not part of the
    repository; a valid rigibra Attitude is a rotor, which is represented
    here faithfully by the images of the basis vectors e1 and e2 under its
    action (the image of e3 is the cross product of the two).  The null
    (invalid) transform of the kernel is Option none.
  * The kernel magnitude function and the repository function
    orinet::align::attitudeFromDirPairs (referenced by stat.hpp and
    robust.hpp but whose defining header is not among the sources) involve
    square roots and exponentials; every definition that uses them takes
    them as an explicit function argument, and every theorem about those
    definitions holds for an arbitrary such argument.  Concrete stand-in
    functions are supplied only to instantiate theorems at witnesses.
-/

namespace OriNet

/-- Scalar value of the code: a finite double is some rational, NaN is none. -/
abbrev OQ := Option ℚ

/-
  Exact rational arithmetic.  The standard rational operations of the
  library do not reduce inside the proof kernel, so the embedding uses
  the following definitionally transparent forms; each is proved equal
  to the corresponding standard operation below (qAdd_eq and friends),
  so every statement phrased with ordinary arithmetic transfers.
-/

/-- Exact rational addition. -/
def qAdd (a b : ℚ) : ℚ := mkRat (a.num * b.den + b.num * a.den) (a.den * b.den)

/-- Exact rational subtraction. -/
def qSub (a b : ℚ) : ℚ := mkRat (a.num * b.den - b.num * a.den) (a.den * b.den)

/-- Exact rational multiplication. -/
def qMul (a b : ℚ) : ℚ := mkRat (a.num * b.num) (a.den * b.den)

/-- Exact rational halving (the 0.5 * x of the code). -/
def qHalf (a : ℚ) : ℚ := mkRat a.num (a.den * 2)

/-- std::max on doubles over finite values: (a < b) picks b, else a. -/
def qMax (a b : ℚ) : ℚ := if a < b then b else a

/-- Multiplication of a double by the constant one half (the expression
0.5 * err of the code); NaN propagates. -/
def halfO (x : OQ) : OQ := x.map qHalf

/-- The builtin operator lt on doubles: any comparison involving NaN is false. -/
def oLt (a b : OQ) : Bool :=
  match a, b with
  | some x, some y => decide (x < y)
  | _, _ => false

/-- The comparison relation used for all sorted scalar containers. -/
abbrev leR : ℚ → ℚ → Prop := fun a b => a ≤ b

/-- Sorted copy of a list of finite doubles.  robust::medianOf uses
std::nth_element and std::min_element; their contract places the k-th order
statistic at the inspected positions, so the embedding reads the fully
sorted list at those positions. -/
def sortedOf (values : List ℚ) : List ℚ := List.insertionSort leR values

/-- robust::medianOf (robust.hpp lines 64-142).  Empty input returns the
null double (NaN).  For odd size n the element at sorted position n / 2 is
returned; for even size the mean of sorted positions n / 2 - 1 and n / 2.
The fatal-exit branch of the code (even size with n / 2 = 0) is
unreachable, since an even nonempty size is at least 2. -/
def medianOf (values : List ℚ) : OQ :=
  if values.isEmpty then none
  else
    let n := values.length
    let v := sortedOf values
    if n % 2 = 1 then v[n / 2]?
    else
      match v[n / 2 - 1]?, v[n / 2]? with
      | some a, some b => some (qHalf (qAdd a b))
      | _, _ => none

/-- stat::track::Values (stat.hpp lines 59-179): the accumulated data
values, maintained in sorted order by insert. -/
structure Values where
  theValues : List ℚ

/-- Values with no inserted data (the reserve size only preallocates). -/
def Values.init : Values := ⟨[]⟩

/-- Values::size. -/
def Values.size (s : Values) : Nat := s.theValues.length

/-- Values::insert: insertion at the std::lower_bound position, i.e. before
the first element that is greater than or equal to the new value. -/
def Values.insert (s : Values) (value : ℚ) : Values :=
  ⟨List.orderedInsert leR value s.theValues⟩

/-- Values::median (stat.hpp lines 113-135). -/
def Values.median (s : Values) : OQ :=
  let n := s.theValues.length
  if n = 0 then none
  else if n % 2 = 1 then s.theValues[n / 2]?
  else
    match s.theValues[n / 2 - 1]?, s.theValues[n / 2]? with
    | some a, some b => some (qHalf (qAdd a b))
    | _, _ => none

/-- Values::medianPrev (stat.hpp lines 139-152). -/
def Values.medianPrev (s : Values) : OQ :=
  let n := s.theValues.length
  if 1 < n then s.theValues[n / 2 - 1]? else none

/-- Values::medianNext (stat.hpp lines 156-177). -/
def Values.medianNext (s : Values) : OQ :=
  let n := s.theValues.length
  if 1 < n then
    if n % 2 = 1 then s.theValues[n / 2 + 1]? else s.theValues[n / 2]?
  else none

/-- The Values instance obtained by inserting the given finite values in
the given order into a fresh tracker. -/
def trackedValues (xs : List ℚ) : Values := xs.foldl Values.insert Values.init

/-- A finite engabra Vector: three finite real components. -/
structure V3 where
  x : ℚ
  y : ℚ
  z : ℚ
deriving DecidableEq

/-- A Vector whose components may individually be NaN (as produced by the
component-wise tracker queries). -/
structure V3o where
  x : OQ
  y : OQ
  z : OQ
deriving DecidableEq

/-- All components finite: the vector as a valid kernel Vector. -/
def V3o.toV3 (v : V3o) : Option V3 :=
  match v.x, v.y, v.z with
  | some a, some b, some c => some ⟨a, b, c⟩
  | _, _, _ => none

def V3.add (a b : V3) : V3 := ⟨qAdd a.x b.x, qAdd a.y b.y, qAdd a.z b.z⟩

def V3.sub (a b : V3) : V3 := ⟨qSub a.x b.x, qSub a.y b.y, qSub a.z b.z⟩

def V3.smul (c : ℚ) (a : V3) : V3 := ⟨qMul c a.x, qMul c a.y, qMul c a.z⟩

/-- Cross product, used to recover the image of e3 from a rotor given by
its images of e1 and e2. -/
def V3.cross (a b : V3) : V3 :=
  ⟨qSub (qMul a.y b.z) (qMul a.z b.y), qSub (qMul a.z b.x) (qMul a.x b.z),
   qSub (qMul a.x b.y) (qMul a.y b.x)⟩

def e1V : V3 := ⟨1, 0, 0⟩

def e2V : V3 := ⟨0, 1, 0⟩

/-- A valid rigibra Attitude (unit rotor), represented by the images of
the basis vectors e1 and e2 under its rotation action; this determines
the rotation completely (the image of e3 is the cross product).  An
invalid (NaN-bearing) attitude is represented by Option none wherever an
attitude can be invalid. -/
structure Att where
  i1 : V3
  i2 : V3
deriving DecidableEq

/-- Rotation action of an attitude on a vector: linear extension of the
basis images. -/
def Att.act (a : Att) (v : V3) : V3 :=
  (V3.smul v.x a.i1).add ((V3.smul v.y a.i2).add (V3.smul v.z (a.i1.cross a.i2)))

/-- Attitude inverse (the transposed rotation): its basis images are the
rows of the rotation whose columns are the images of this attitude. -/
def Att.inv (a : Att) : Att :=
  ⟨⟨a.i1.x, a.i2.x, (a.i1.cross a.i2).x⟩, ⟨a.i1.y, a.i2.y, (a.i1.cross a.i2).y⟩⟩

/-- Attitude composition: b after a (images of the composite). -/
def Att.comp (b a : Att) : Att := ⟨b.act a.i1, b.act a.i2⟩

def Att.identity : Att := ⟨e1V, e2V⟩

/-- A valid rigibra Transform: translation and attitude. -/
structure Tf where
  loc : V3
  att : Att
deriving DecidableEq

/-- A possibly invalid Transform; rigibra null transform is none.  The
rigibra isValid test (a NaN component anywhere makes the value invalid)
is isSome of this representation. -/
abbrev TfO := Option Tf

/-- Kernel transform inverse (contract of spec section 6) for the
convention where the transform carries x to att(x) + loc. -/
def Tf.inv (t : Tf) : Tf :=
  ⟨V3.smul (mkRat (-1) 1) (t.att.inv.act t.loc), t.att.inv⟩

def invTfO (t : TfO) : TfO := t.map Tf.inv

/-- Kernel transform composition b * a (apply a first), same convention. -/
def Tf.comp (b a : Tf) : Tf := ⟨(b.att.act a.loc).add b.loc, b.att.comp a.att⟩

/-- Composition lifted to possibly invalid transforms; an invalid operand
makes the result invalid (NaN propagation of the kernel). -/
def compTfO (b a : TfO) : TfO :=
  match b, a with
  | some b, some a => some (b.comp a)
  | _, _ => none

/-- Assemble a Transform from component-wise tracker outputs: any NaN
component or invalid attitude yields the invalid transform. -/
def mkTfO (l : V3o) (a : Option Att) : TfO :=
  match l.toV3, a with
  | some loc, some att => some ⟨loc, att⟩
  | _, _ => none

/-- compare::triadDeltaVectors (compare.hpp lines 59-88) restricted to
valid attitudes: differences of the transformed basis vectors. -/
def triadDeltaVectors (att1 att2 : Att) : V3 × V3 × V3 :=
  ((att2.act e1V).sub (att1.act e1V),
   (att2.act e2V).sub (att1.act e2V),
   (att2.act (e1V.cross e2V)).sub (att1.act (e1V.cross e2V)))

/-- compare::hexadDeltaVectors (compare.hpp lines 97-199) on two valid
transforms; mag is the external kernel magnitude function (it involves a
square root, so it is passed in as an argument). -/
def hexadDeltaVectors (mag : V3 → ℚ) (xfm1 xfm2 : Tf) (norm : Bool) :
    List V3 :=
  let rho : ℚ :=
    if norm then qMax 1 (qHalf (qAdd (mag xfm1.loc) (mag xfm2.loc))) else 1
  let dT := (xfm1.att.act xfm1.loc).sub (xfm2.att.act xfm2.loc)
  let d := triadDeltaVectors xfm1.att xfm2.att
  let d1 := V3.smul rho d.1
  let d2 := V3.smul rho d.2.1
  let d3 := V3.smul rho d.2.2
  [dT.add d1, dT.sub d1, dT.add d2, dT.sub d2, dT.add d3, dT.sub d3]

/-- compare::maxMagResultDifference (compare.hpp lines 246-274): the null
double when either transform is invalid, else the maximum of the six
hexad difference magnitudes (folded against the initial value -1). -/
def maxMagResultDifference (mag : V3 → ℚ) (xfm1 xfm2 : TfO) (norm : Bool) :
    OQ :=
  match xfm1, xfm2 with
  | some a, some b =>
      some ((hexadDeltaVectors mag a b norm).foldl (fun m v => qMax m (mag v)) (-1))
  | _, _ => none

/-- stat::track::Vectors (stat.hpp lines 182-278): three independent
Values trackers for the x, y, z components. -/
structure Vectors where
  v0 : Values
  v1 : Values
  v2 : Values

def Vectors.init : Vectors := ⟨Values.init, Values.init, Values.init⟩

def Vectors.size (s : Vectors) : Nat := s.v0.size

def Vectors.insert (s : Vectors) (value : V3) : Vectors :=
  ⟨s.v0.insert value.x, s.v1.insert value.y, s.v2.insert value.z⟩

def Vectors.median (s : Vectors) : V3o :=
  ⟨s.v0.median, s.v1.median, s.v2.median⟩

def Vectors.medianPrev (s : Vectors) : V3o :=
  ⟨s.v0.medianPrev, s.v1.medianPrev, s.v2.medianPrev⟩

def Vectors.medianNext (s : Vectors) : V3o :=
  ⟨s.v0.medianNext, s.v1.medianNext, s.v2.medianNext⟩

/-- stat::track::Attitudes (stat.hpp lines 281-395): tracks the images of
e1 and e2 under each inserted attitude, component-wise. -/
structure Attitudes where
  iv0 : Vectors
  iv1 : Vectors

def Attitudes.init : Attitudes := ⟨Vectors.init, Vectors.init⟩

def Attitudes.size (s : Attitudes) : Nat := s.iv0.size

def Attitudes.insert (s : Attitudes) (value : Att) : Attitudes :=
  ⟨s.iv0.insert (value.act e1V), s.iv1.insert (value.act e2V)⟩

/-- Attitudes::median: reconstruction through
orinet::align::attitudeFromDirPairs with the fixed reference pair e1, e2.
That function is repository code whose header is not among the sources
(and its algorithm takes spinor square roots and logarithms), so it is
passed in as the argument afdp, mapping the pair of tracked median image
vectors to the reconstructed attitude (none when invalid). -/
def Attitudes.median (afdp : V3o → V3o → Option Att) (s : Attitudes) :
    Option Att :=
  afdp s.iv0.median s.iv1.median

def Attitudes.medianPrev (afdp : V3o → V3o → Option Att) (s : Attitudes) :
    Option Att :=
  afdp s.iv0.medianPrev s.iv1.medianPrev

def Attitudes.medianNext (afdp : V3o → V3o → Option Att) (s : Attitudes) :
    Option Att :=
  afdp s.iv0.medianNext s.iv1.medianNext

/-- stat::track::Transforms (stat.hpp lines 398-529). -/
structure Transforms where
  theLocs : Vectors
  theAtts : Attitudes

def Transforms.init : Transforms := ⟨Vectors.init, Attitudes.init⟩

def Transforms.size (s : Transforms) : Nat := s.theLocs.size

def Transforms.insert (s : Transforms) (value : Tf) : Transforms :=
  ⟨s.theLocs.insert value.loc, s.theAtts.insert value.att⟩

def Transforms.median (afdp : V3o → V3o → Option Att) (s : Transforms) :
    TfO :=
  mkTfO s.theLocs.median (s.theAtts.median afdp)

def Transforms.medianPrev (afdp : V3o → V3o → Option Att) (s : Transforms) :
    TfO :=
  mkTfO s.theLocs.medianPrev (s.theAtts.medianPrev afdp)

def Transforms.medianNext (afdp : V3o → V3o → Option Att) (s : Transforms) :
    TfO :=
  mkTfO s.theLocs.medianNext (s.theAtts.medianNext afdp)

/-- Transforms::medianErrorEstimate (stat.hpp lines 503-527): the
compare::maxMagResultDifference of the medianPrev and medianNext
transforms, halved when the number of inserted transforms is odd. -/
def Transforms.medianErrorEstimate (mag : V3 → ℚ)
    (afdp : V3o → V3o → Option Att) (s : Transforms) (norm : Bool) : OQ :=
  let err := maxMagResultDifference mag (s.medianPrev afdp) (s.medianNext afdp) norm
  if s.size % 2 = 1 then halfO err else err

/-- Wrap a finite vector as a component-wise possibly-NaN vector. -/
def V3.toV3o (v : V3) : V3o := ⟨some v.x, some v.y, some v.z⟩

/-- robust::transformViaParameters (robust.hpp lines 172-238).  Invalid
inputs are skipped; the surviving transforms are decomposed into the three
translation components and the three physical-angle bivector components,
and the result is rebuilt from the six component medians.  The kernel
bijection between an attitude and its physical angle (spec section 6)
is transcendental, so physAngle and attFromPhysAngle are arguments. -/
def transformViaParameters (physAngle : Att → V3) (attFromPhysAngle : V3 → Att)
    (xs : List TfO) : TfO :=
  if xs.length = 0 then none
  else
    let vs := xs.filterMap id
    if vs.isEmpty then none
    else
      let locMed : V3o :=
        ⟨medianOf (vs.map fun t => t.loc.x),
         medianOf (vs.map fun t => t.loc.y),
         medianOf (vs.map fun t => t.loc.z)⟩
      let angMed : V3o :=
        ⟨medianOf (vs.map fun t => (physAngle t.att).x),
         medianOf (vs.map fun t => (physAngle t.att).y),
         medianOf (vs.map fun t => (physAngle t.att).z)⟩
      mkTfO locMed (angMed.toV3.map attFromPhysAngle)

/-- robust::transformViaEffect (robust.hpp lines 263-358).  Invalid inputs
are skipped; the translation is the component-wise median of the input
translations, and the attitude is reconstructed by afdp
(orinet::align::attitudeFromDirPairs with reference pair e1, e2) from the
component-wise medians of the images of e1 and e2. -/
def transformViaEffect (afdp : V3o → V3o → Option Att) (xs : List TfO) : TfO :=
  if xs.length = 0 then none
  else
    let vs := xs.filterMap id
    if vs.isEmpty then none
    else
      let locMed : V3o :=
        ⟨medianOf (vs.map fun t => t.loc.x),
         medianOf (vs.map fun t => t.loc.y),
         medianOf (vs.map fun t => t.loc.z)⟩
      let a1Med : V3o :=
        ⟨medianOf (vs.map fun t => (t.att.act e1V).x),
         medianOf (vs.map fun t => (t.att.act e1V).y),
         medianOf (vs.map fun t => (t.att.act e1V).z)⟩
      let b1Med : V3o :=
        ⟨medianOf (vs.map fun t => (t.att.act e2V).x),
         medianOf (vs.map fun t => (t.att.act e2V).y),
         medianOf (vs.map fun t => (t.att.act e2V).z)⟩
      mkTfO locMed (afdp a1Med b1Med)

/-- Spec-side definition for the two-input case of the parameter
estimator: the element-wise mean taken in parameter space (translation
components and physical-angle components), as the even-size median rule
produces it. -/
def paramMean (physAngle : Att → V3) (attFromPhysAngle : V3 → Att)
    (t1 t2 : Tf) : Tf :=
  ⟨V3.smul (mkRat 1 2) (t1.loc.add t2.loc),
   attFromPhysAngle (V3.smul (mkRat 1 2) ((physAngle t1.att).add (physAngle t2.att)))⟩

/-- Spec-side definition for the two-input case of the effect estimator:
the element-wise mean taken over the tracked elements of that estimator
(translation components and the probe images of e1 and e2), with the
attitude reconstructed from the two mean images. -/
def effectMean (afdp : V3o → V3o → Option Att) (t1 t2 : Tf) : TfO :=
  mkTfO (V3.smul (mkRat 1 2) (t1.loc.add t2.loc)).toV3o
    (afdp (V3.smul (mkRat 1 2) ((t1.att.act e1V).add (t2.att.act e1V))).toV3o
          (V3.smul (mkRat 1 2) ((t1.att.act e2V).add (t2.att.act e2V))).toV3o)

/-- Modelled from the spec: StaKey is an unsigned 64-bit integer and a
reserved maximum value denotes invalid (the sNullKey constant whose
defining header is absent from the sources). -/
def sNullKey : Nat := 2 ^ 64 - 1

/-- Modelled from the spec: orinet::network::isValid on station keys and
vertex ids (defining header absent from the sources); a key is valid when
it is below the reserved maximum. -/
def keyIsValid (k : Nat) : Bool := decide (k < sNullKey)

/-- network::EdgeDir (networkEdge.hpp lines 79-212). -/
structure EdgeDir where
  theFromKey : Nat
  theIntoKey : Nat
deriving DecidableEq

/-- The default-constructed EdgeDir: both keys null. -/
def EdgeDir.null : EdgeDir := ⟨sNullKey, sNullKey⟩

def EdgeDir.fromKey (d : EdgeDir) : Nat := d.theFromKey

def EdgeDir.intoKey (d : EdgeDir) : Nat := d.theIntoKey

/-- EdgeDir::isValid: both keys valid and different. -/
def EdgeDir.valid (d : EdgeDir) : Bool :=
  keyIsValid d.theFromKey && keyIsValid d.theIntoKey
    && decide (d.theFromKey ≠ d.theIntoKey)

inductive DirCompare
| Different
| Forward
| Reverse
deriving DecidableEq

/-- EdgeDir::compareTo (networkEdge.hpp lines 127-151). -/
def EdgeDir.compareTo (d testDir : EdgeDir) : DirCompare :=
  if d.valid then
    if testDir.theFromKey = d.theFromKey && testDir.theIntoKey = d.theIntoKey then
      DirCompare.Forward
    else if testDir.theIntoKey = d.theFromKey && testDir.theFromKey = d.theIntoKey then
      DirCompare.Reverse
    else DirCompare.Different
  else DirCompare.Different

/-- EdgeDir::reverseEdgeDir: swap domain and range keys. -/
def EdgeDir.reverseEdgeDir (d : EdgeDir) : EdgeDir :=
  ⟨d.theIntoKey, d.theFromKey⟩

/-- The closed edge capability set of networkEdge.hpp as a tagged variant:
EdgeBase (null placeholder), EdgeOri (one transform and a fit error) and
EdgeRobust (a running transform tracker). -/
inductive Edge
| base (dir : EdgeDir)
| ori (dir : EdgeDir) (xfm : TfO) (fitErr : OQ)
| robust (dir : EdgeDir) (tracker : Transforms)

def Edge.edgeDir : Edge → EdgeDir
  | .base d => d
  | .ori d _ _ => d
  | .robust d _ => d

def Edge.fromKey (e : Edge) : Nat := e.edgeDir.theFromKey

def Edge.intoKey (e : Edge) : Nat := e.edgeDir.theIntoKey

def Edge.isRobust : Edge → Bool
  | .robust _ _ => true
  | _ => false

def Edge.isOri : Edge → Bool
  | .ori _ _ _ => true
  | _ => false

/-- The fixed weight an EdgeRobust reports while it holds a single sample
(networkEdge.hpp line 555). -/
def veryUncertain : ℚ := 1048576

/-- Virtual get_weight (networkEdge.hpp lines 284-294, 423-432, 540-565):
null for EdgeBase, the fit error for EdgeOri, and for EdgeRobust the
median error estimate of the tracker with normalization off, except the
fixed veryUncertain value when only one sample has accumulated. -/
def Edge.get_weight (mag : V3 → ℚ) (afdp : V3o → V3o → Option Att) :
    Edge → OQ
  | .base _ => none
  | .ori _ _ fitErr => fitErr
  | .robust _ tracker =>
      if tracker.size = 0 then none
      else if tracker.size = 1 then some veryUncertain
      else tracker.medianErrorEstimate mag afdp false

/-- Virtual xform: null for EdgeBase, the stored transform for EdgeOri,
the tracker median for EdgeRobust. -/
def Edge.xform (afdp : V3o → V3o → Option Att) : Edge → TfO
  | .base _ => none
  | .ori _ xfm _ => xfm
  | .robust _ tracker => tracker.median afdp

/-- Virtual reversedInstance (networkEdge.hpp lines 328-336, 434-446,
567-579).  EdgeBase reverses to an EdgeBase with swapped keys; EdgeOri to
an EdgeOri with swapped keys, inverted transform and the same fit error;
EdgeRobust constructs an EdgeOri (not an EdgeRobust) with swapped keys,
the inverse of the median transform and the current weight as fit
error. -/
def Edge.reversedInstance (mag : V3 → ℚ) (afdp : V3o → V3o → Option Att) :
    Edge → Edge
  | .base d => .base d.reverseEdgeDir
  | .ori d xfm fitErr => .ori d.reverseEdgeDir (invTfO xfm) fitErr
  | .robust d tracker =>
      .ori d.reverseEdgeDir (invTfO (tracker.median afdp))
        (Edge.get_weight mag afdp (.robust d tracker))

/-- EdgeBase::operator< (networkEdge.hpp lines 296-304): increasing edge
weight, through the builtin double comparison. -/
def Edge.ltE (mag : V3 → ℚ) (afdp : V3o → V3o → Option Att) (a b : Edge) :
    Bool :=
  oLt (a.get_weight mag afdp) (b.get_weight mag afdp)

/-- EdgeBase::operator!= (networkEdge.hpp lines 306-314):
(other < this) or (this < other). -/
def Edge.neE (mag : V3 → ℚ) (afdp : V3o → V3o → Option Att) (a b : Edge) :
    Bool :=
  Edge.ltE mag afdp b a || Edge.ltE mag afdp a b

/-- The EdgeRobust value constructor (networkEdge.hpp lines 487-498):
starts a tracker and accumulates the given transform into it. -/
def mkEdgeRobust (dir : EdgeDir) (xfm : Tf) : Edge :=
  .robust dir (Transforms.init.insert xfm)

/-- network::Geometry (networkGeometry.hpp / networkGeometry.cpp).  The
graaf undirected graph collaborator (external library) is modelled per
the spec contract of sections 4.7 and 9: vertices get increasing integer
ids starting at zero (here: list index), an edge connects two vertex ids
and carries an edge object, and an edge id is the pair of its vertex ids,
which a retrieval may present in either order. -/
structure Geometry where
  verts : List Nat
  gedges : List (Nat × Nat × Edge)
  vmap : List (Nat × Nat)

def Geometry.init : Geometry := ⟨[], [], []⟩

/-- Geometry::hasStaKey (networkGeometry.cpp lines 97-103). -/
def Geometry.hasStaKey (g : Geometry) (staKey : Nat) : Bool :=
  (g.vmap.lookup staKey).isSome

/-- Geometry::ensureStaFrameExists (networkGeometry.cpp lines 105-116). -/
def Geometry.ensureStaFrameExists (g : Geometry) (staKey : Nat) : Geometry :=
  if g.hasStaKey staKey then g
  else ⟨g.verts ++ [staKey], g.gedges, g.vmap ++ [(staKey, g.verts.length)]⟩

/-- Geometry::vertIdForStaKey (networkGeometry.cpp lines 118-129). -/
def Geometry.vertIdForStaKey (g : Geometry) (staKey : Nat) : Nat :=
  match g.vmap.lookup staKey with
  | some v => v
  | none => sNullKey

/-- Geometry::staKeyForVertId (networkGeometry.cpp lines 131-143). -/
def Geometry.staKeyForVertId (g : Geometry) (vertId : Nat) : Nat :=
  match g.verts[vertId]? with
  | some k => k
  | none => sNullKey

/-- Geometry::insertEdge (networkGeometry.cpp lines 243-268): ensure both
endpoint frames exist, then look the vertex ids back up; when either
lookup yields an invalid id the code prints FATAL and exits(1), modelled
by none; otherwise the edge is added between the two vertex ids. -/
def Geometry.insertEdge (g : Geometry) (e : Edge) : Option Geometry :=
  let g1 := (g.ensureStaFrameExists e.fromKey).ensureStaFrameExists e.intoKey
  let v1 := g1.vertIdForStaKey e.fromKey
  let v2 := g1.vertIdForStaKey e.intoKey
  if keyIsValid v1 && keyIsValid v2 then
    some ⟨g1.verts, g1.gedges ++ [(v1, v2, e)], g1.vmap⟩
  else none

/-- Edge retrieval by edge id: an undirected edge id matches in either
vertex order (spec section 4.7: a retrieval may yield the pair in either
order). -/
def Geometry.getEdge (g : Geometry) (eId : Nat × Nat) : Option Edge :=
  (g.gedges.find? fun t =>
    (t.1 == eId.1 && t.2.1 == eId.2) || (t.1 == eId.2 && t.2.1 == eId.1)).map
    fun t => t.2.2

/-- True when the pair is an edge id of the graph (in either order). -/
def Geometry.hasEdgeId (g : Geometry) (eId : Nat × Nat) : Bool :=
  (g.getEdge eId).isSome

/-- Geometry::edgeBaseForEdgeId (networkGeometry.cpp lines 145-188): look
up the endpoint keys of the edge id, fetch the stored edge, and compare
the wanted direction with the stored direction; Forward uses the edge as
is, Reverse uses the reversed instance, Different prints a fatal message
and leaves the null pointer (none here). -/
def Geometry.edgeBaseForEdgeId (mag : V3 → ℚ) (afdp : V3o → V3o → Option Att)
    (g : Geometry) (eId : Nat × Nat) : Option Edge :=
  if eId.1 < g.verts.length && eId.2 < g.verts.length then
    match g.getEdge eId with
    | some e =>
        let wantDir : EdgeDir := ⟨g.staKeyForVertId eId.1, g.staKeyForVertId eId.2⟩
        match wantDir.compareTo e.edgeDir with
        | DirCompare.Forward => some e
        | DirCompare.Reverse => some (e.reversedInstance mag afdp)
        | DirCompare.Different => none
    | none => none
  else none

/-- Geometry::networkTree (networkGeometry.cpp lines 305-344): rebuild a
new Geometry from the listed edge ids; an edge is kept as stored when the
key of the first id vertex is below the key of the second, replaced by
its reversed instance when above, and replaced by the default
EdgeBase (null direction) when the two keys are equal; each resulting
edge is inserted through insertEdge (whose fatal exit propagates as
none).  A missing edge id aborts (graaf get_edge throws), also none. -/
def Geometry.networkTreeStep (mag : V3 → ℚ) (afdp : V3o → V3o → Option Att)
    (g : Geometry) (net : Geometry) (eId : Nat × Nat) : Option Geometry :=
  match g.getEdge eId with
  | none => none
  | some e =>
      let k1 := g.staKeyForVertId eId.1
      let k2 := g.staKeyForVertId eId.2
      let use : Edge :=
        if k1 < k2 then e
        else if k2 < k1 then e.reversedInstance mag afdp
        else Edge.base EdgeDir.null
      net.insertEdge use

def Geometry.networkTree (mag : V3 → ℚ) (afdp : V3o → V3o → Option Att)
    (g : Geometry) (eIds : List (Nat × Nat)) : Option Geometry :=
  eIds.foldlM (g.networkTreeStep mag afdp) Geometry.init

/-- Vertex ids adjacent to u through some graph edge, in edge storage
order, paired for the traversal as (u, neighbor). -/
def Geometry.neighborsFrom (g : Geometry) (u : Nat) : List Nat :=
  g.gedges.filterMap fun t =>
    if t.1 == u then some t.2.1 else if t.2.1 == u then some t.1 else none

/-- Modelled from the spec: graaf breadth_first_traverse (external
library), per sections 4.7 and 9: breadth-first traversal from the start
vertex, marking vertices when first enqueued, and yielding each discovery
edge id (in traversal orientation) in visit order. -/
def bfsAux (g : Geometry) : Nat → List Nat → List Nat → List (Nat × Nat)
  | 0, _, _ => []
  | _ + 1, [], _ => []
  | fuel + 1, u :: qs, visited =>
      let fresh := (g.neighborsFrom u).foldl
        (fun acc w => if visited.contains w || acc.contains w then acc else acc ++ [w]) []
      (fresh.map fun w => (u, w)) ++ bfsAux g fuel (qs ++ fresh) (visited ++ fresh)

def Geometry.bfsEdgeIds (g : Geometry) (v0 : Nat) : List (Nat × Nat) :=
  bfsAux g (g.verts.length + 1) [v0] [v0]

/-- Insert or overwrite a station entry of the propagation result map. -/
def mapUpsert (m : List (Nat × TfO)) (k : Nat) (v : TfO) : List (Nat × TfO) :=
  if m.any fun p => p.1 == k then
    m.map fun p => if p.1 == k then (k, v) else p
  else m ++ [(k, v)]

/-- Geometry::Propagator::operator() (networkGeometry.cpp lines 190-239):
recover the direction-corrected edge for the traversed edge id, read the
already-propagated transform of its from station (the null transform when
absent, after a fatal message that does not exit), take the edge
transform only when that is valid, and store their composition at the
into station.  When edgeBaseForEdgeId yields no edge the C++ would
dereference a null pointer; that path is unreachable for graphs built by
insertEdge and is modelled as leaving the map unchanged. -/
def Geometry.propStep (mag : V3 → ℚ) (afdp : V3o → V3o → Option Att)
    (g : Geometry) (m : List (Nat × TfO)) (eId : Nat × Nat) :
    List (Nat × TfO) :=
  match g.edgeBaseForEdgeId mag afdp eId with
  | none => m
  | some e =>
      let xFromWrtRef : TfO := (m.lookup e.fromKey).getD none
      let xIntoWrtFrom : TfO := if xFromWrtRef.isSome then e.xform afdp else none
      mapUpsert m e.intoKey (compTfO xIntoWrtFrom xFromWrtRef)

/-- Geometry::propagateTransforms (networkGeometry.cpp lines 346-377):
empty map when the graph has no vertices; otherwise the map is seeded
with the anchor entry, and only when the anchor key resolves to a valid
vertex id does the breadth-first propagation run (otherwise an error is
printed and the seeded map is returned as is). -/
def Geometry.propagateTransforms (mag : V3 → ℚ)
    (afdp : V3o → V3o → Option Att) (g : Geometry) (staKey0 : Nat)
    (staXform0 : TfO) : List (Nat × TfO) :=
  if g.verts.length = 0 then []
  else
    let seed : List (Nat × TfO) := mapUpsert [] staKey0 staXform0
    let v0 := g.vertIdForStaKey staKey0
    if keyIsValid v0 then (g.bfsEdgeIds v0).foldl (g.propStep mag afdp) seed
    else seed

/-- Stand-in for the kernel magnitude, used only to instantiate the
parametric theorems at concrete witnesses; no theorem below depends on
the choice. -/
def magModel (v : V3) : ℚ := qAdd (qAdd (qMul v.x v.x) (qMul v.y v.y)) (qMul v.z v.z)

/-- Stand-in for attitudeFromDirPairs, used only to instantiate the
parametric theorems at concrete witnesses: a pair of finite image vectors
is packaged as the attitude with those basis images, anything NaN-bearing
gives the invalid attitude. -/
def afdpModel (a b : V3o) : Option Att :=
  match a.toV3, b.toV3 with
  | some va, some vb => some ⟨va, vb⟩
  | _, _ => none

/-- Stand-in for Attitude::physAngle at witnesses. -/
def physAngleModel (_ : Att) : V3 := ⟨0, 0, 0⟩

/-- Stand-in for the Attitude-from-PhysAngle constructor at witnesses. -/
def attFromPhysModel (_ : V3) : Att := Att.identity

/-- The identity transform, for witnesses. -/
def idTf : Tf := ⟨⟨0, 0, 0⟩, Att.identity⟩

/-- A concrete EdgeOri between stations 1 and 2, for witnesses. -/
def eOriEx : Edge := Edge.ori ⟨1, 2⟩ (some idTf) (some 1)

/-- A concrete self-loop EdgeOri (both endpoint keys 3), for witnesses. -/
def eSelf : Edge := Edge.ori ⟨3, 3⟩ (some idTf) (some 1)

/-- A concrete two-station geometry holding the edge from 1 into 2. -/
def gEx : Geometry := (Geometry.init.insertEdge eOriEx).getD Geometry.init

/-
  Theorems.  First the transfer lemmas identifying the kernel-transparent
  arithmetic with the standard rational operations, then the sortedness
  facts for the streaming trackers, then one theorem per claim (with a
  witness where the theorem carries hypotheses).
-/

theorem qAdd_eq (a b : ℚ) : qAdd a b = a + b := (Rat.add_def' a b).symm

theorem qSub_eq (a b : ℚ) : qSub a b = a - b := (Rat.sub_def' a b).symm

theorem qMul_eq (a b : ℚ) : qMul a b = a * b := by
  rw [qMul, Rat.mul_def, Rat.normalize_eq_mkRat]

theorem qHalf_eq (a : ℚ) : qHalf a = a / 2 := by
  rw [qHalf, Rat.mkRat_eq_divInt, Rat.divInt_eq_div]
  push_cast
  rw [← div_div, Rat.num_div_den]

theorem qMax_eq (a b : ℚ) : qMax a b = max a b := by
  rcases lt_trichotomy a b with h | h | h
  · simp [qMax, h, max_eq_right h.le]
  · simp [qMax, h]
  · simp [qMax, not_lt_of_gt h, h.not_lt, max_eq_left h.le]

theorem qHalf_qAdd_eq (a b : ℚ) : qHalf (qAdd a b) = (a + b) / 2 := by
  rw [qAdd_eq, qHalf_eq]

theorem sortedOf_length (l : List ℚ) : (sortedOf l).length = l.length :=
  List.length_insertionSort leR l

theorem sortedOf_sorted (l : List ℚ) : (sortedOf l).Sorted leR :=
  List.sorted_insertionSort leR l

theorem sortedOf_perm (l : List ℚ) : (sortedOf l).Perm l :=
  List.perm_insertionSort leR l

/-- Two lists that are permutations of each other sort identically. -/
theorem sortedOf_congr {l l' : List ℚ} (h : l.Perm l') :
    sortedOf l = sortedOf l' :=
  List.eq_of_perm_of_sorted
    ((sortedOf_perm l).trans (h.trans (sortedOf_perm l').symm))
    (sortedOf_sorted l) (sortedOf_sorted l')

theorem foldl_insert_sorted (xs : List ℚ) (s : Values)
    (h : s.theValues.Sorted leR) :
    ((xs.foldl Values.insert s).theValues).Sorted leR := by
  induction xs generalizing s with
  | nil => exact h
  | cons x xs ih =>
      exact ih (s.insert x) (List.Sorted.orderedInsert x s.theValues h)

theorem foldl_insert_perm (xs : List ℚ) (s : Values) :
    ((xs.foldl Values.insert s).theValues).Perm (xs ++ s.theValues) := by
  induction xs generalizing s with
  | nil => exact List.Perm.refl _
  | cons x xs ih =>
      refine (ih (s.insert x)).trans ?_
      refine (List.Perm.append_left xs ?_).trans List.perm_middle
      exact List.perm_orderedInsert leR x s.theValues

/-- The tracker contents after any insertion sequence are the sorted copy
of the inserted values. -/
theorem trackedValues_eq (xs : List ℚ) :
    (trackedValues xs).theValues = sortedOf xs := by
  refine List.eq_of_perm_of_sorted ?_ ?_ (sortedOf_sorted xs)
  · exact ((foldl_insert_perm xs Values.init).trans (by simp [Values.init])).trans
      (sortedOf_perm xs).symm
  · exact foldl_insert_sorted xs Values.init (List.sorted_nil)

/-- C6: robust::medianOf returns NaN on the empty sequence; for odd
length n it returns the element at sorted position (n - 1) / 2; for even
length the mean of the elements at sorted positions n / 2 - 1 and n / 2;
and the result is invariant under permutation of the input. -/
theorem claim_C6_medianOf :
    medianOf [] = none
    ∧ (∀ l : List ℚ, l.length % 2 = 1 →
        medianOf l = (sortedOf l)[(l.length - 1) / 2]?)
    ∧ (∀ l : List ℚ, l ≠ [] → l.length % 2 = 0 →
        ∃ a b, (sortedOf l)[l.length / 2 - 1]? = some a
          ∧ (sortedOf l)[l.length / 2]? = some b
          ∧ medianOf l = some ((a + b) / 2))
    ∧ (∀ l l' : List ℚ, l.Perm l' → medianOf l = medianOf l') := by
  refine ⟨rfl, ?_, ?_, ?_⟩
  · intro l h
    have hne : l.isEmpty = false := by
      cases l with
      | nil => simp at h
      | cons a l => rfl
    have hidx : l.length / 2 = (l.length - 1) / 2 := by omega
    simp only [medianOf, hne, Bool.false_eq_true, if_false, h, if_true, hidx]
  · intro l hne h
    have hlen : 2 ≤ l.length := by
      cases l with
      | nil => simp at hne
      | cons a l => simp at h ⊢; omega
    have h1 : l.length / 2 - 1 < (sortedOf l).length := by
      rw [sortedOf_length]; omega
    have h2 : l.length / 2 < (sortedOf l).length := by
      rw [sortedOf_length]; omega
    refine ⟨(sortedOf l)[l.length / 2 - 1], (sortedOf l)[l.length / 2],
      List.getElem?_eq_getElem h1, List.getElem?_eq_getElem h2, ?_⟩
    have hodd : ¬ (l.length % 2 = 1) := by omega
    have hempty : l.isEmpty = false := by
      cases l with
      | nil => exact absurd rfl hne
      | cons a l => rfl
    simp only [medianOf, hempty, Bool.false_eq_true, if_false, hodd,
      List.getElem?_eq_getElem h1, List.getElem?_eq_getElem h2, if_neg hodd,
      qHalf_qAdd_eq]
  · intro l l' hperm
    have hlen : l.length = l'.length := hperm.length_eq
    have hemp : l.isEmpty = l'.isEmpty := by
      cases l with
      | nil => cases l' with
        | nil => rfl
        | cons b l' => exact absurd hperm.length_eq (by simp)
      | cons a l => cases l' with
        | nil => exact absurd hperm.length_eq (by simp)
        | cons b l' => rfl
    simp only [medianOf, hemp, hlen, sortedOf_congr hperm]

/-- Witness for C6: the theorem applied at concrete inputs, discharging
the parity and nonemptiness hypotheses there. -/
theorem claim_C6_medianOf_witness :
    medianOf [5, 1, 3] = (sortedOf [5, 1, 3])[1]?
    ∧ medianOf [4, 2] = medianOf [2, 4] := by
  constructor
  · exact claim_C6_medianOf.2.1 [5, 1, 3] (by decide)
  · exact claim_C6_medianOf.2.2.2 [4, 2] [2, 4] (by decide)

/-- C7: for a track::Values instance holding n inserted finite values,
with v their sorted list: prev and next are NaN for n below 2; for odd n
the median is v at n / 2, prev is v at n / 2 - 1 and next is v at
n / 2 + 1 (the flanking indices existing for n at least 3); for even
nonzero n the median is the mean of v at n / 2 - 1 and v at n / 2, prev
is v at n / 2 - 1 and next is v at n / 2. -/
theorem claim_C7_values_tracker (xs : List ℚ) :
    (xs.length < 2 →
      (trackedValues xs).medianPrev = none ∧ (trackedValues xs).medianNext = none)
    ∧ (xs.length % 2 = 1 →
        (trackedValues xs).median = (sortedOf xs)[xs.length / 2]?)
    ∧ (xs.length % 2 = 1 → 2 ≤ xs.length →
        (trackedValues xs).medianPrev = (sortedOf xs)[xs.length / 2 - 1]?
        ∧ (trackedValues xs).medianNext = (sortedOf xs)[xs.length / 2 + 1]?)
    ∧ (xs.length % 2 = 0 → 0 < xs.length →
        (∃ a b, (sortedOf xs)[xs.length / 2 - 1]? = some a
          ∧ (sortedOf xs)[xs.length / 2]? = some b
          ∧ (trackedValues xs).median = some ((a + b) / 2))
        ∧ (trackedValues xs).medianPrev = (sortedOf xs)[xs.length / 2 - 1]?
        ∧ (trackedValues xs).medianNext = (sortedOf xs)[xs.length / 2]?) := by
  have hv : (trackedValues xs).theValues = sortedOf xs := trackedValues_eq xs
  have hslen : (sortedOf xs).length = xs.length := sortedOf_length xs
  refine ⟨?_, ?_, ?_, ?_⟩
  · intro h
    constructor
    · simp only [Values.medianPrev, hv, hslen, if_neg (by omega : ¬ 1 < xs.length)]
    · simp only [Values.medianNext, hv, hslen, if_neg (by omega : ¬ 1 < xs.length)]
  · intro h
    simp only [Values.median, hv, hslen, if_neg (by omega : ¬ xs.length = 0), h,
      if_true]
  · intro h h2
    constructor
    · simp only [Values.medianPrev, hv, hslen, if_pos (by omega : 1 < xs.length)]
    · simp only [Values.medianNext, hv, hslen, if_pos (by omega : 1 < xs.length),
        h, if_true]
  · intro h h0
    have h1 : xs.length / 2 - 1 < (sortedOf xs).length := by
      rw [sortedOf_length]; omega
    have h2 : xs.length / 2 < (sortedOf xs).length := by
      rw [sortedOf_length]; omega
    refine ⟨⟨(sortedOf xs)[xs.length / 2 - 1], (sortedOf xs)[xs.length / 2],
      List.getElem?_eq_getElem h1, List.getElem?_eq_getElem h2, ?_⟩, ?_, ?_⟩
    · simp only [Values.median, hv, hslen, if_neg (by omega : ¬ xs.length = 0),
        if_neg (by omega : ¬ xs.length % 2 = 1),
        List.getElem?_eq_getElem h1, List.getElem?_eq_getElem h2, qHalf_qAdd_eq]
    · simp only [Values.medianPrev, hv, hslen, if_pos (by omega : 1 < xs.length)]
    · simp only [Values.medianNext, hv, hslen, if_pos (by omega : 1 < xs.length),
        if_neg (by omega : ¬ xs.length % 2 = 1)]

/-- Witness for C7: the theorem applied to the streaming scenario of the
spec, discharging the parity and size hypotheses at that input. -/
theorem claim_C7_values_tracker_witness :
    (trackedValues [-8, -6, 9, -1, 3, 1, 4]).median
      = (sortedOf [-8, -6, 9, -1, 3, 1, 4])[3]?
    ∧ (trackedValues [7]).medianPrev = none := by
  constructor
  · exact (claim_C7_values_tracker [-8, -6, 9, -1, 3, 1, 4]).2.1 (by decide)
  · exact ((claim_C7_values_tracker [7]).1 (by decide)).1

theorem oLt_none_left (w : OQ) : oLt none w = false := rfl

theorem oLt_none_right (w : OQ) : oLt w none = false := by
  cases w <;> rfl

theorem oLt_irrefl (w : OQ) : oLt w w = false := by
  cases w with
  | none => rfl
  | some q => simp [oLt]

theorem toV3_xnone (y z : OQ) : (V3o.mk none y z).toV3 = none := by
  cases y <;> cases z <;> rfl

theorem mkTfO_locNone (l : V3o) (a : Option Att) (h : l.toV3 = none) :
    mkTfO l a = none := by
  unfold mkTfO
  rw [h]

theorem maxMag_none_left (mag : V3 → ℚ) (x : TfO) (norm : Bool) :
    maxMagResultDifference mag none x norm = none := rfl

/-- With fewer than two inserted transforms the locs tracker has no prev
value, so the medianPrev transform is the invalid transform. -/
theorem medianPrev_small (afdp : V3o → V3o → Option Att) (s : Transforms)
    (h : s.size < 2) : s.medianPrev afdp = none := by
  have h2 : s.theLocs.v0.theValues.length < 2 := h
  have hx : s.theLocs.v0.medianPrev = none := by
    simp only [Values.medianPrev, if_neg (by omega : ¬ 1 < s.theLocs.v0.theValues.length)]
  refine mkTfO_locNone _ _ ?_
  simp only [Vectors.medianPrev, hx]
  exact toV3_xnone _ _

/-- C8: Transforms::medianErrorEstimate is NaN when fewer than two
transforms have been inserted; in all cases it equals the
maxMagResultDifference of the medianPrev and medianNext transforms,
halved exactly when the number of inserted transforms is odd.  The
theorem holds for every choice of the external magnitude function and of
the attitudeFromDirPairs reconstruction. -/
theorem claim_C8_medianErrorEstimate (mag : V3 → ℚ)
    (afdp : V3o → V3o → Option Att) (s : Transforms) (norm : Bool) :
    (s.size < 2 → s.medianErrorEstimate mag afdp norm = none)
    ∧ s.medianErrorEstimate mag afdp norm =
        (if s.size % 2 = 1 then
          halfO (maxMagResultDifference mag (s.medianPrev afdp) (s.medianNext afdp) norm)
        else
          maxMagResultDifference mag (s.medianPrev afdp) (s.medianNext afdp) norm) := by
  constructor
  · intro h
    have hp : s.medianPrev afdp = none := medianPrev_small afdp s h
    simp only [Transforms.medianErrorEstimate, hp, maxMag_none_left]
    by_cases hodd : s.size % 2 = 1 <;> simp [hodd, halfO]
  · rfl

/-- Witness for C8: the theorem applied to a tracker holding one
transform, discharging the size hypothesis there. -/
theorem claim_C8_medianErrorEstimate_witness :
    Transforms.medianErrorEstimate magModel afdpModel
      (Transforms.init.insert idTf) false = none :=
  (claim_C8_medianErrorEstimate magModel afdpModel
    (Transforms.init.insert idTf) false).1 (by decide)

/-- C10: the edge comparison operators consult only the edge weight:
operator!= holds exactly when one weight is below the other under the
builtin double comparison; edges with equal weights compare as
not-different whatever their directions or transforms; and an edge with a
NaN weight compares as not-different from every edge. -/
theorem claim_C10_edge_compare (mag : V3 → ℚ) (afdp : V3o → V3o → Option Att)
    (a b : Edge) :
    (Edge.neE mag afdp a b = true ↔
      (oLt (a.get_weight mag afdp) (b.get_weight mag afdp) = true
        ∨ oLt (b.get_weight mag afdp) (a.get_weight mag afdp) = true))
    ∧ (a.get_weight mag afdp = b.get_weight mag afdp →
        Edge.neE mag afdp a b = false)
    ∧ (a.get_weight mag afdp = none → Edge.neE mag afdp a b = false) := by
  refine ⟨?_, ?_, ?_⟩
  · simp only [Edge.neE, Edge.ltE, Bool.or_eq_true]
    exact or_comm
  · intro h
    simp only [Edge.neE, Edge.ltE, h, oLt_irrefl, Bool.or_self]
  · intro h
    simp only [Edge.neE, Edge.ltE, h, oLt_none_left, oLt_none_right,
      Bool.or_self]

/-- Witness for C10: two placeholder edges with different directions and
equal (NaN) weights compare as not-different; the theorem is applied at
them with the equal-weight hypothesis discharged by rfl. -/
theorem claim_C10_edge_compare_witness :
    Edge.neE magModel afdpModel (Edge.base ⟨1, 2⟩) (Edge.base ⟨2, 9⟩) = false :=
  (claim_C10_edge_compare magModel afdpModel (Edge.base ⟨1, 2⟩)
    (Edge.base ⟨2, 9⟩)).2.1 rfl

/-- C3 counterexample: an EdgeRobust holding exactly one accumulated
transform has weight 1048576 (the veryUncertain constant), while the
medianErrorEstimate of its tracker is NaN, so the two differ.  The two
displayed values do not depend on the stand-in mag and afdp arguments:
the weight comes from the single-sample branch and the estimate is NaN
because the tracker has no flanking values. -/
theorem claim_C3_counterexample :
    (Transforms.init.insert idTf).size = 1
    ∧ Edge.get_weight magModel afdpModel (mkEdgeRobust ⟨1, 2⟩ idTf)
        = some veryUncertain
    ∧ Transforms.medianErrorEstimate magModel afdpModel
        (Transforms.init.insert idTf) false = none
    ∧ ¬ (Edge.get_weight magModel afdpModel (mkEdgeRobust ⟨1, 2⟩ idTf)
        = Transforms.medianErrorEstimate magModel afdpModel
            (Transforms.init.insert idTf) false) := by
  exact ⟨rfl, by decide, by decide, by decide⟩

/-- C3 (amended): an EdgeRobust reports the medianErrorEstimate of its
tracker (with normalization off) once at least two samples have
accumulated; with exactly one sample it reports the fixed veryUncertain
value instead. -/
theorem claim_C3_robust_weight (mag : V3 → ℚ) (afdp : V3o → V3o → Option Att)
    (d : EdgeDir) (tr : Transforms) :
    (2 ≤ tr.size →
      Edge.get_weight mag afdp (Edge.robust d tr)
        = tr.medianErrorEstimate mag afdp false)
    ∧ (tr.size = 1 →
      Edge.get_weight mag afdp (Edge.robust d tr) = some veryUncertain) := by
  constructor
  · intro h
    simp only [Edge.get_weight, if_neg (by omega : ¬ tr.size = 0),
      if_neg (by omega : ¬ tr.size = 1)]
  · intro h
    simp [Edge.get_weight, h]

/-- Witness for C3: the amended theorem applied to a tracker holding two
samples, discharging the size hypothesis there. -/
theorem claim_C3_robust_weight_witness :
    Edge.get_weight magModel afdpModel
      (Edge.robust ⟨1, 2⟩ ((Transforms.init.insert idTf).insert idTf))
      = Transforms.medianErrorEstimate magModel afdpModel
          ((Transforms.init.insert idTf).insert idTf) false :=
  (claim_C3_robust_weight magModel afdpModel ⟨1, 2⟩
    ((Transforms.init.insert idTf).insert idTf)).1 (by decide)

/-- C4 counterexample: reversedInstance does not preserve the Robust
variant: reversing an EdgeRobust produces an EdgeOri. -/
theorem claim_C4_counterexample :
    (mkEdgeRobust ⟨1, 2⟩ idTf).isRobust = true
    ∧ (Edge.reversedInstance magModel afdpModel
        (mkEdgeRobust ⟨1, 2⟩ idTf)).isRobust = false
    ∧ (Edge.reversedInstance magModel afdpModel
        (mkEdgeRobust ⟨1, 2⟩ idTf)).isOri = true :=
  ⟨rfl, rfl, rfl⟩

/-- C4 (amended): reversedInstance always swaps the from and into keys;
a Base edge reverses to a Base edge, an Ori edge to an Ori edge with the
inverse transform and the same fit error, and a Robust edge to an Ori
edge carrying the inverse of the tracker median and the weight of the
original edge as its fit error. -/
theorem claim_C4_reversed (mag : V3 → ℚ) (afdp : V3o → V3o → Option Att)
    (e : Edge) :
    (Edge.reversedInstance mag afdp e).edgeDir = e.edgeDir.reverseEdgeDir
    ∧ (∀ d, e = Edge.base d →
        Edge.reversedInstance mag afdp e = Edge.base d.reverseEdgeDir)
    ∧ (∀ d x f, e = Edge.ori d x f →
        Edge.reversedInstance mag afdp e
          = Edge.ori d.reverseEdgeDir (invTfO x) f)
    ∧ (∀ d tr, e = Edge.robust d tr →
        Edge.reversedInstance mag afdp e
          = Edge.ori d.reverseEdgeDir (invTfO (tr.median afdp))
              (Edge.get_weight mag afdp (Edge.robust d tr))) := by
  refine ⟨?_, ?_, ?_, ?_⟩
  · cases e <;> rfl
  · intro d h
    subst h
    rfl
  · intro d x f h
    subst h
    rfl
  · intro d tr h
    subst h
    rfl

/-- Witness for C4: the amended theorem applied to a concrete Ori edge,
its variant-identifying hypothesis discharged by rfl. -/
theorem claim_C4_reversed_witness :
    Edge.reversedInstance magModel afdpModel (Edge.ori ⟨1, 2⟩ (some idTf) (some 1))
      = Edge.ori (EdgeDir.reverseEdgeDir ⟨1, 2⟩) (invTfO (some idTf)) (some 1) :=
  (claim_C4_reversed magModel afdpModel
    (Edge.ori ⟨1, 2⟩ (some idTf) (some 1))).2.2.1 ⟨1, 2⟩ (some idTf) (some 1) rfl

theorem medianOf_singleton (x : ℚ) : medianOf [x] = some x := by
  unfold medianOf
  simp [sortedOf, List.insertionSort, List.orderedInsert]

theorem mkRatHalf : (mkRat 1 2 : ℚ) = 1 / 2 := by
  rw [Rat.mkRat_eq_divInt, Rat.divInt_eq_div]
  norm_num

theorem smul_half_eq (a b : ℚ) : qMul (mkRat 1 2) (qAdd a b) = (a + b) / 2 := by
  rw [qMul_eq, qAdd_eq, mkRatHalf]
  ring

theorem medianOf_pair (x y : ℚ) : medianOf [x, y] = some ((x + y) / 2) := by
  have hs : sortedOf [x, y] = if x ≤ y then [x, y] else [y, x] := by
    simp [sortedOf, List.insertionSort, List.orderedInsert]
  by_cases hxy : x ≤ y
  · simp [medianOf, hs, hxy, qHalf_qAdd_eq]
  · simp [medianOf, hs, hxy, qHalf_qAdd_eq, add_comm]

/-- C9: both robust estimators return the invalid transform on an empty
sequence; on a singleton valid transform each returns that transform,
given the defining round-trip contracts of the external kernel (the
physical-angle bijection of spec section 6) and of the absent
attitudeFromDirPairs code (the alignment round trip of spec sections 4.1
and 8), which enter as hypotheses on the function arguments; and on two
valid transforms each returns the element-wise mean over the elements
that estimator tracks, as the spec-side definitions paramMean (mean in
parameter space) and effectMean (mean translation and mean probe images)
make precise. -/
theorem claim_C9_robust_estimators (physAngle : Att → V3)
    (attFromPhysAngle : V3 → Att) (afdp : V3o → V3o → Option Att)
    (t t1 t2 : Tf) :
    transformViaParameters physAngle attFromPhysAngle [] = none
    ∧ transformViaEffect afdp [] = none
    ∧ (attFromPhysAngle (physAngle t.att) = t.att →
        transformViaParameters physAngle attFromPhysAngle [some t] = some t)
    ∧ (afdp (t.att.act e1V).toV3o (t.att.act e2V).toV3o = some t.att →
        transformViaEffect afdp [some t] = some t)
    ∧ transformViaParameters physAngle attFromPhysAngle [some t1, some t2]
        = some (paramMean physAngle attFromPhysAngle t1 t2)
    ∧ transformViaEffect afdp [some t1, some t2] = effectMean afdp t1 t2 := by
  refine ⟨rfl, rfl, ?_, ?_, ?_, ?_⟩
  · intro hrt
    simp [transformViaParameters, medianOf_singleton, V3o.toV3, mkTfO, hrt]
  · intro hrt
    simp only [transformViaEffect, List.length_cons, List.length_nil,
      List.filterMap_cons, List.filterMap_nil, id, List.isEmpty_cons,
      List.map_cons, List.map_nil, medianOf_singleton]
    simp only [show (⟨some (t.att.act e1V).x, some (t.att.act e1V).y,
        some (t.att.act e1V).z⟩ : V3o) = (t.att.act e1V).toV3o from rfl,
      show (⟨some (t.att.act e2V).x, some (t.att.act e2V).y,
        some (t.att.act e2V).z⟩ : V3o) = (t.att.act e2V).toV3o from rfl, hrt]
    simp [mkTfO, V3o.toV3]
  · simp [transformViaParameters, medianOf_pair, paramMean, mkTfO, V3o.toV3,
      V3.smul, V3.add, smul_half_eq]
  · simp [transformViaEffect, medianOf_pair, effectMean, mkTfO, V3o.toV3,
      V3.smul, V3.add, V3.toV3o, smul_half_eq]

/-- Witness for C9: the theorem applied with the stand-in kernel
functions at the identity transform, discharging the round-trip
hypotheses there by computation. -/
theorem claim_C9_robust_estimators_witness :
    transformViaParameters physAngleModel attFromPhysModel [some idTf] = some idTf
    ∧ transformViaEffect afdpModel [some idTf] = some idTf := by
  constructor
  · exact (claim_C9_robust_estimators physAngleModel attFromPhysModel afdpModel
      idTf idTf idTf).2.2.1 (by decide)
  · exact (claim_C9_robust_estimators physAngleModel attFromPhysModel afdpModel
      idTf idTf idTf).2.2.2.1 (by decide)

theorem lookup_mem {l : List (Nat × Nat)} {k v : Nat}
    (h : l.lookup k = some v) : (k, v) ∈ l := by
  induction l with
  | nil => simp [List.lookup] at h
  | cons p l ih =>
      obtain ⟨k1, v1⟩ := p
      rw [List.lookup] at h
      split at h
      · next heq =>
          have hk : k = k1 := by simpa using heq
          have hv : v1 = v := by simpa using h
          subst hk
          subst hv
          exact List.mem_cons_self _ _
      · next heq => exact List.mem_cons_of_mem _ (ih h)

theorem lookup_append (l1 l2 : List (Nat × Nat)) (k : Nat) :
    (l1 ++ l2).lookup k =
      (match l1.lookup k with
        | some v => some v
        | none => l2.lookup k) := by
  induction l1 with
  | nil => rfl
  | cons p l ih =>
      obtain ⟨k1, v1⟩ := p
      rw [List.cons_append, List.lookup, List.lookup]
      cases hk : (k == k1) <;> simp [ih]

theorem keyIsValid_null : keyIsValid sNullKey = false := by
  simp [keyIsValid]

theorem lookup_none_of_not_hasStaKey (g : Geometry) (k : Nat)
    (h : g.hasStaKey k = false) : g.vmap.lookup k = none := by
  unfold Geometry.hasStaKey at h
  cases hc : g.vmap.lookup k with
  | none => rfl
  | some v =>
      rw [hc] at h
      simp at h

theorem vertId_of_not_hasStaKey (g : Geometry) (k : Nat)
    (h : g.hasStaKey k = false) : g.vertIdForStaKey k = sNullKey := by
  unfold Geometry.vertIdForStaKey
  rw [lookup_none_of_not_hasStaKey g k h]

/-- C1 counterexample: in a nonempty geometry, propagateTransforms with
an anchor key that is not a station returns the map already seeded with
the anchor entry, not the empty map. -/
theorem claim_C1_counterexample :
    gEx.hasStaKey 9 = false
    ∧ gEx.propagateTransforms magModel afdpModel 9 (some idTf) = [(9, some idTf)]
    ∧ ¬ (gEx.propagateTransforms magModel afdpModel 9 (some idTf) = []) := by
  exact ⟨by decide, by decide, by decide⟩

/-- C1 (amended): for an anchor key that is not a station,
propagateTransforms returns the empty map when the geometry has no
vertices, and otherwise the singleton map holding only the seeded anchor
entry. -/
theorem claim_C1_propagate_missing_anchor (mag : V3 → ℚ)
    (afdp : V3o → V3o → Option Att) (g : Geometry) (k0 : Nat) (x0 : TfO)
    (h : g.hasStaKey k0 = false) :
    g.propagateTransforms mag afdp k0 x0
      = if g.verts.length = 0 then [] else [(k0, x0)] := by
  unfold Geometry.propagateTransforms
  by_cases hv : g.verts.length = 0
  · simp [hv]
  · have hk : g.vertIdForStaKey k0 = sNullKey := vertId_of_not_hasStaKey g k0 h
    simp [hv, hk, keyIsValid_null, mapUpsert]

/-- Witness for C1: the amended theorem applied to the concrete geometry
and missing anchor key, its hypothesis discharged by computation. -/
theorem claim_C1_propagate_missing_anchor_witness :
    gEx.propagateTransforms magModel afdpModel 9 (some idTf)
      = if gEx.verts.length = 0 then [] else [(9, some idTf)] :=
  claim_C1_propagate_missing_anchor magModel afdpModel gEx 9 (some idTf) (by decide)

theorem ensure_gedges (g : Geometry) (k : Nat) :
    (g.ensureStaFrameExists k).gedges = g.gedges := by
  unfold Geometry.ensureStaFrameExists
  split <;> rfl

theorem ensure_verts_len (g : Geometry) (k : Nat) :
    (g.ensureStaFrameExists k).verts.length ≤ g.verts.length + 1 := by
  unfold Geometry.ensureStaFrameExists
  split
  · omega
  · simp

theorem ensure_vmap_bound (g : Geometry) (k : Nat)
    (hb : ∀ p ∈ g.vmap, p.2 < sNullKey) (hl : g.verts.length < sNullKey) :
    ∀ p ∈ (g.ensureStaFrameExists k).vmap, p.2 < sNullKey := by
  unfold Geometry.ensureStaFrameExists
  split
  · exact hb
  · intro p hp
    rcases List.mem_append.mp hp with hp | hp
    · exact hb p hp
    · simp only [List.mem_singleton] at hp
      subst hp
      exact hl

theorem ensure_hasStaKey (g : Geometry) (k : Nat) :
    (g.ensureStaFrameExists k).hasStaKey k = true := by
  unfold Geometry.ensureStaFrameExists
  by_cases h : g.hasStaKey k
  · simp [h]
  · have hnone : g.vmap.lookup k = none :=
      lookup_none_of_not_hasStaKey g k (by simpa using h)
    simp only [h, if_false, Geometry.hasStaKey, lookup_append, hnone]
    simp [List.lookup]

theorem ensure_hasStaKey_mono (g : Geometry) (k k2 : Nat)
    (h : g.hasStaKey k = true) :
    (g.ensureStaFrameExists k2).hasStaKey k = true := by
  unfold Geometry.ensureStaFrameExists
  split
  · exact h
  · unfold Geometry.hasStaKey at h ⊢
    obtain ⟨v, hv⟩ := Option.isSome_iff_exists.mp h
    rw [lookup_append, hv]
    rfl

theorem vertId_lt (g : Geometry) (k : Nat)
    (hb : ∀ p ∈ g.vmap, p.2 < sNullKey) (h : g.hasStaKey k = true) :
    g.vertIdForStaKey k < sNullKey := by
  unfold Geometry.hasStaKey at h
  obtain ⟨v, hv⟩ := Option.isSome_iff_exists.mp h
  unfold Geometry.vertIdForStaKey
  rw [hv]
  exact hb _ (lookup_mem hv)

/-- C2 counterexample: an edge whose two endpoint keys are equal (a
self-loop at station 3) is inserted without any fatal error: insertEdge
succeeds and the graph then holds that edge between the single vertex. -/
theorem claim_C2_counterexample :
    (Geometry.init.insertEdge eSelf).isSome = true
    ∧ ((Geometry.init.insertEdge eSelf).getD Geometry.init).verts = [3]
    ∧ ((Geometry.init.insertEdge eSelf).getD Geometry.init).gedges.map
        (fun t => (t.1, t.2.1, t.2.2.fromKey, t.2.2.intoKey))
      = [(0, 0, 3, 3)] := by
  exact ⟨by decide, by decide, by decide⟩

/-- C2 (amended): insertEdge performs no equal-endpoint check: for every
edge, equal endpoint keys included, it creates the missing endpoint
frames and adds the edge between the looked-up vertex ids; the fatal
exit is reserved for a failed vertex lookup after creation, which cannot
happen while the vertex ids stay below the null key (hypotheses: the key
map holds only valid ids and two more vertices still fit below the null
key). -/
theorem claim_C2_insertEdge_no_selfloop_check (g : Geometry) (e : Edge)
    (hb : ∀ p ∈ g.vmap, p.2 < sNullKey)
    (hl : g.verts.length + 2 ≤ sNullKey) :
    ∃ g2 v1 v2, g.insertEdge e = some g2
      ∧ g2.gedges = g.gedges ++ [(v1, v2, e)] := by
  have hl1 : g.verts.length < sNullKey := by omega
  have hb1 : ∀ p ∈ (g.ensureStaFrameExists e.fromKey).vmap, p.2 < sNullKey :=
    ensure_vmap_bound g e.fromKey hb hl1
  have hl2 : (g.ensureStaFrameExists e.fromKey).verts.length < sNullKey := by
    have := ensure_verts_len g e.fromKey
    omega
  have hb2 : ∀ p ∈ ((g.ensureStaFrameExists e.fromKey).ensureStaFrameExists
      e.intoKey).vmap, p.2 < sNullKey :=
    ensure_vmap_bound _ e.intoKey hb1 hl2
  have hk1 : ((g.ensureStaFrameExists e.fromKey).ensureStaFrameExists
      e.intoKey).hasStaKey e.fromKey = true :=
    ensure_hasStaKey_mono _ e.fromKey e.intoKey (ensure_hasStaKey g e.fromKey)
  have hk2 : ((g.ensureStaFrameExists e.fromKey).ensureStaFrameExists
      e.intoKey).hasStaKey e.intoKey = true :=
    ensure_hasStaKey _ e.intoKey
  have hv1 := vertId_lt _ e.fromKey hb2 hk1
  have hv2 := vertId_lt _ e.intoKey hb2 hk2
  have hcond : (keyIsValid (((g.ensureStaFrameExists e.fromKey).ensureStaFrameExists
        e.intoKey).vertIdForStaKey e.fromKey)
      && keyIsValid (((g.ensureStaFrameExists e.fromKey).ensureStaFrameExists
        e.intoKey).vertIdForStaKey e.intoKey)) = true := by
    simp [keyIsValid, hv1, hv2]
  refine ⟨⟨((g.ensureStaFrameExists e.fromKey).ensureStaFrameExists e.intoKey).verts,
      ((g.ensureStaFrameExists e.fromKey).ensureStaFrameExists e.intoKey).gedges
        ++ [(((g.ensureStaFrameExists e.fromKey).ensureStaFrameExists
              e.intoKey).vertIdForStaKey e.fromKey,
            ((g.ensureStaFrameExists e.fromKey).ensureStaFrameExists
              e.intoKey).vertIdForStaKey e.intoKey, e)],
      ((g.ensureStaFrameExists e.fromKey).ensureStaFrameExists e.intoKey).vmap⟩,
    ((g.ensureStaFrameExists e.fromKey).ensureStaFrameExists
      e.intoKey).vertIdForStaKey e.fromKey,
    ((g.ensureStaFrameExists e.fromKey).ensureStaFrameExists
      e.intoKey).vertIdForStaKey e.intoKey, ?_, ?_⟩
  · unfold Geometry.insertEdge
    dsimp only
    rw [if_pos hcond]
  · dsimp only
    rw [ensure_gedges, ensure_gedges]

/-- Witness for C2: the amended theorem applied to the empty geometry and
the concrete self-loop edge, its hypotheses discharged by computation. -/
theorem claim_C2_insertEdge_no_selfloop_check_witness :
    ∃ g2 v1 v2, Geometry.init.insertEdge eSelf = some g2
      ∧ g2.gedges = Geometry.init.gedges ++ [(v1, v2, eSelf)] :=
  claim_C2_insertEdge_no_selfloop_check Geometry.init eSelf
    (by decide) (by decide)

theorem reversedInstance_dir (mag : V3 → ℚ) (afdp : V3o → V3o → Option Att)
    (e : Edge) :
    (e.reversedInstance mag afdp).edgeDir = e.edgeDir.reverseEdgeDir := by
  cases e <;> rfl

theorem insertEdge_gedges_of_some (g : Geometry) (e : Edge) (g2 : Geometry)
    (h : g.insertEdge e = some g2) :
    ∃ v1 v2, g2.gedges = g.gedges ++ [(v1, v2, e)] := by
  unfold Geometry.insertEdge at h
  dsimp only at h
  split at h
  · cases h
    refine ⟨((g.ensureStaFrameExists e.fromKey).ensureStaFrameExists
        e.intoKey).vertIdForStaKey e.fromKey,
      ((g.ensureStaFrameExists e.fromKey).ensureStaFrameExists
        e.intoKey).vertIdForStaKey e.intoKey, ?_⟩
    show _ ++ _ = g.gedges ++ _
    rw [ensure_gedges, ensure_gedges]
  · exact absurd h (by simp)

/-- Every edge inserted by the networkTree fold is canonically oriented,
provided every processed edge id is given in the stored from-into
orientation of an edge whose endpoint keys differ. -/
theorem networkTree_fold_canonical (mag : V3 → ℚ)
    (afdp : V3o → V3o → Option Att) (g : Geometry) :
    ∀ (eIds : List (Nat × Nat)) (acc net : Geometry),
      (∀ p ∈ eIds, ∀ e, g.getEdge p = some e →
        e.edgeDir.theFromKey = g.staKeyForVertId p.1
        ∧ e.edgeDir.theIntoKey = g.staKeyForVertId p.2
        ∧ g.staKeyForVertId p.1 ≠ g.staKeyForVertId p.2) →
      (∀ t ∈ acc.gedges, t.2.2.edgeDir.theFromKey < t.2.2.edgeDir.theIntoKey) →
      List.foldlM (g.networkTreeStep mag afdp) acc eIds = some net →
      ∀ t ∈ net.gedges,
        t.2.2.edgeDir.theFromKey < t.2.2.edgeDir.theIntoKey := by
  intro eIds
  induction eIds with
  | nil =>
      intro acc net _ hacc hfold
      cases hfold
      exact hacc
  | cons p ps ih =>
      intro acc net hgood hacc hfold
      rw [List.foldlM_cons] at hfold
      cases hstep : g.networkTreeStep mag afdp acc p with
      | none =>
          rw [hstep] at hfold
          have hnone : (none : Option Geometry) = some net := hfold
          cases hnone
      | some acc2 =>
          rw [hstep] at hfold
          have hfold2 : List.foldlM (g.networkTreeStep mag afdp) acc2 ps
              = some net := hfold
          refine ih acc2 net (fun q hq => hgood q (List.mem_cons_of_mem _ hq))
            ?_ hfold2
          unfold Geometry.networkTreeStep at hstep
          cases hget : g.getEdge p with
          | none =>
              rw [hget] at hstep
              exact absurd hstep (by simp)
          | some e =>
              rw [hget] at hstep
              dsimp only at hstep
              obtain ⟨h1, h2, hne⟩ := hgood p (List.mem_cons_self _ _) e hget
              by_cases hlt : g.staKeyForVertId p.1 < g.staKeyForVertId p.2
              · rw [if_pos hlt] at hstep
                obtain ⟨v1, v2, hged⟩ := insertEdge_gedges_of_some _ _ _ hstep
                intro t ht
                rw [hged] at ht
                rcases List.mem_append.mp ht with ht | ht
                · exact hacc t ht
                · simp only [List.mem_singleton] at ht
                  subst ht
                  dsimp only
                  rw [h1, h2]
                  exact hlt
              · by_cases hgt : g.staKeyForVertId p.2 < g.staKeyForVertId p.1
                · rw [if_neg hlt, if_pos hgt] at hstep
                  obtain ⟨v1, v2, hged⟩ := insertEdge_gedges_of_some _ _ _ hstep
                  intro t ht
                  rw [hged] at ht
                  rcases List.mem_append.mp ht with ht | ht
                  · exact hacc t ht
                  · simp only [List.mem_singleton] at ht
                    subst ht
                    dsimp only
                    rw [reversedInstance_dir]
                    show e.edgeDir.theIntoKey < e.edgeDir.theFromKey
                    rw [h1, h2]
                    exact hgt
                · exact absurd hne (by omega)

/-- C5 counterexample: networkTree orients by the vertex order of the
given edge id, not by the stored direction, and an undirected edge id is
retrievable in either order (spec section 4.7); handing it the reversed
id (1, 0) of the stored edge from station 1 into station 2 produces a
tree whose edge runs from key 2 into key 1, the opposite of the
canonical direction from = min, into = max. -/
theorem claim_C5_counterexample :
    gEx.hasEdgeId (1, 0) = true
    ∧ (gEx.networkTree magModel afdpModel [(1, 0)]).isSome = true
    ∧ ((gEx.networkTree magModel afdpModel [(1, 0)]).getD Geometry.init).gedges.map
        (fun t => (t.2.2.edgeDir.theFromKey, t.2.2.edgeDir.theIntoKey)) = [(2, 1)]
    ∧ ¬ (((gEx.networkTree magModel afdpModel [(1, 0)]).getD Geometry.init).gedges.all
        (fun t => t.2.2.edgeDir.theFromKey ≤ t.2.2.edgeDir.theIntoKey) = true) := by
  exact ⟨by decide, by decide, by decide, by decide⟩

/-- C5 (amended): when every listed edge id is given in the stored
from-into orientation of an edge whose two endpoint station keys differ,
every edge stored in the Geometry returned by networkTree is canonically
oriented: its from key is the smaller and its into key the larger of its
two endpoint station keys. -/
theorem claim_C5_networkTree_canonical (mag : V3 → ℚ)
    (afdp : V3o → V3o → Option Att) (g : Geometry)
    (eIds : List (Nat × Nat)) (net : Geometry)
    (hgood : ∀ p ∈ eIds, ∀ e, g.getEdge p = some e →
      e.edgeDir.theFromKey = g.staKeyForVertId p.1
      ∧ e.edgeDir.theIntoKey = g.staKeyForVertId p.2
      ∧ g.staKeyForVertId p.1 ≠ g.staKeyForVertId p.2)
    (hnet : g.networkTree mag afdp eIds = some net) :
    ∀ t ∈ net.gedges,
      t.2.2.edgeDir.theFromKey < t.2.2.edgeDir.theIntoKey :=
  networkTree_fold_canonical mag afdp g eIds Geometry.init net hgood
    (by intro t ht; simp [Geometry.init] at ht) hnet

/-- Witness for C5: the amended theorem applied to the concrete geometry
with the stored-orientation edge id, its hypotheses discharged at that
input. -/
theorem claim_C5_networkTree_canonical_witness :
    ∃ net, gEx.networkTree magModel afdpModel [(0, 1)] = some net
      ∧ ∀ t ∈ net.gedges,
          t.2.2.edgeDir.theFromKey < t.2.2.edgeDir.theIntoKey := by
  have hsome : (gEx.networkTree magModel afdpModel [(0, 1)]).isSome = true := by
    decide
  refine ⟨(gEx.networkTree magModel afdpModel [(0, 1)]).get hsome,
    (Option.some_get hsome).symm, ?_⟩
  refine claim_C5_networkTree_canonical magModel afdpModel gEx [(0, 1)] _
    ?_ (Option.some_get hsome).symm
  intro p hp e hget
  simp only [List.mem_singleton] at hp
  subst hp
  have hg : gEx.getEdge (0, 1) = some eOriEx := rfl
  rw [hg] at hget
  cases hget
  exact ⟨rfl, rfl, by decide⟩

end OriNet
